import Mathlib

/-!
Verification of the streaming session engine of the code-swap frontend.

The definitions below are shallow embeddings of the TypeScript sources:
- `chop`, `runChunks`, `extract`, `decodeFrames` embed the frame decoder of
  `streamFromResponse` / `streamFromCrewResponse` (src/api/client.ts);
- `estimateTokens`, `getPricing`, `calculateCost` embed src/frontend/src/utils/pricing.ts;
- `singleStep` / `submitSingle` embed the event loop of `SingleChatPanel.submit`;
- `compareStep` / `submitCompare` embed the event loop of `ComparePanel.submit`;
- `updateAgentOutput` / `crewStep` / `handleSubmitCrew` embed the zustand store
  (appStore.ts) and the event loop of `CrewPanel.handleSubmit`;
- `dashboardTotalCost` embeds the total-cost display of `CrewDashboard`.

JavaScript strings are modelled as `List Char`, numbers as `ℚ` (token counts as `ℕ`),
and absent (`undefined`) record fields as `Option`.
-/

namespace CodeSwap

/-- Character-list model of a JavaScript string. -/
abbrev Chars := List Char

/-! ## Frame decoder (streamFromResponse / streamFromCrewResponse)

Each loop iteration appends the chunk to a growable buffer, splits the buffer on
the double line-break `"\n\n"`, pops the final (possibly incomplete) segment back
into the buffer, and forwards each complete segment that starts with `"data:"`
whose payload is non-empty after trimming. -/

/-- Prepend a character to the segment currently being assembled: to the first
complete segment if one exists, otherwise to the trailing buffer. -/
def consFirst (a : Char) : List Chars × Chars → List Chars × Chars
  | ([], buf) => ([], a :: buf)
  | (f :: fs, buf) => ((a :: f) :: fs, buf)

@[simp] theorem consFirst_nil (a : Char) (buf : Chars) :
    consFirst a ([], buf) = ([], a :: buf) := rfl

@[simp] theorem consFirst_cons (a : Char) (f : Chars) (fs : List Chars) (buf : Chars) :
    consFirst a (f :: fs, buf) = ((a :: f) :: fs, buf) := rfl

/-- Split a buffer on the double line-break: `(chop s).1` is the list of complete
segments and `(chop s).2` the trailing (possibly incomplete) segment.  This is
`buffer.split("\n\n")` followed by `buffer = events.pop() || ""` in one step:
the JS split always returns at least one piece, and the popped last piece is
exactly the trailing segment. -/
def chop : Chars → List Chars × Chars
  | [] => ([], [])
  | [a] => ([], [a])
  | a :: b :: rest =>
    if a = '\n' ∧ b = '\n' then
      ([] :: (chop rest).1, (chop rest).2)
    else
      consFirst a (chop (b :: rest))

/-- Feed the chunks one at a time through the buffering loop, emitting the complete
segments of each iteration in order; the trailing buffer is discarded at
end-of-stream, exactly as the JS loop breaks on `done` without flushing. -/
def runChunks (buf : Chars) : List Chars → List Chars
  | [] => []
  | c :: cs => (chop (buf ++ c)).1 ++ runChunks (chop (buf ++ c)).2 cs

/-- JavaScript `String.prototype.trim` whitespace test (restricted to the ASCII
whitespace characters that can occur in the event frames). -/
def isWS (c : Char) : Bool := c = ' ' || c = '\n' || c = '\t' || c = '\r'

/-- JavaScript `s.trim()`. -/
def jsTrim (l : Chars) : Chars := ((l.dropWhile isWS).reverse.dropWhile isWS).reverse

/-- Per-segment forwarding: only segments starting with `"data:"` are kept
(`event.startsWith("data:")`), the prefix is removed (`event.slice(5)`), the
payload is trimmed, and empty payloads are skipped. -/
def extract : Chars → Option Chars
  | 'd' :: 'a' :: 't' :: 'a' :: ':' :: rest =>
      let json := jsTrim rest
      if json = [] then none else some json
  | _ => none

/-- The ordered sequence of frame payloads produced by feeding `chunks` through
the decoding loop starting from an empty buffer. -/
def decodeFrames (chunks : List Chars) : List Chars :=
  (runChunks [] chunks).filterMap extract

/-- When splitting produces no complete segment, the whole input is retained as
the trailing buffer. -/
theorem chop_fst_nil : ∀ (u : Chars), (chop u).1 = [] → (chop u).2 = u
  | [] => fun _ => rfl
  | [a] => fun _ => rfl
  | a :: b :: rest => by
      rw [chop]
      by_cases h : a = '\n' ∧ b = '\n'
      · rw [if_pos h]
        intro hc
        exact absurd hc (by simp)
      · rw [if_neg h]
        rcases hch : chop (b :: rest) with ⟨fs, buf⟩
        cases fs with
        | nil =>
          intro _
          have h2 := chop_fst_nil (b :: rest) (by rw [hch])
          rw [hch] at h2
          simp_all
        | cons f fsr =>
          intro hc
          simp at hc

/-- Splitting a concatenation equals splitting the first part, then splitting its
trailing buffer concatenated with the second part. -/
theorem chop_append : ∀ (s t : Chars),
    chop (s ++ t) = ((chop s).1 ++ (chop ((chop s).2 ++ t)).1, (chop ((chop s).2 ++ t)).2)
  | [], t => by simp [chop]
  | [a], t => by simp [chop]
  | a :: b :: rest, t => by
      by_cases h : a = '\n' ∧ b = '\n'
      · have ih := chop_append rest t
        show chop (a :: b :: (rest ++ t)) = _
        rw [chop, if_pos h, ih]
        conv_rhs => rw [chop, if_pos h]
        simp
      · show chop (a :: b :: (rest ++ t)) = _
        rw [chop, if_neg h]
        conv_rhs => rw [chop, if_neg h]
        have ih := chop_append (b :: rest) t
        rw [show (b :: rest) ++ t = b :: (rest ++ t) from rfl] at ih
        rcases hch : chop (b :: rest) with ⟨fs, buf⟩
        rw [ih]
        cases fs with
        | nil =>
          have hbuf : buf = b :: rest := by
            have h2 := chop_fst_nil (b :: rest) (by rw [hch])
            rw [hch] at h2
            exact h2
          subst hbuf
          rw [hch]
          simp only [consFirst_nil, List.nil_append, List.cons_append, Prod.mk.eta]
          rw [chop, if_neg h]
        | cons f fsr =>
          rw [hch]
          simp

/-- The trailing buffer of a split contains no complete segment. -/
theorem chop_tail : ∀ (u : Chars), (chop ((chop u).2)).1 = []
  | [] => rfl
  | [a] => rfl
  | a :: b :: rest => by
      rw [chop]
      by_cases h : a = '\n' ∧ b = '\n'
      · rw [if_pos h]
        exact chop_tail rest
      · rw [if_neg h]
        rcases hch : chop (b :: rest) with ⟨fs, buf⟩
        cases fs with
        | nil =>
          have hbuf : buf = b :: rest := by
            have h2 := chop_fst_nil (b :: rest) (by rw [hch])
            rw [hch] at h2
            exact h2
          subst hbuf
          simp only [consFirst_nil]
          rw [chop, if_neg h, hch]
          simp
        | cons f fsr =>
          have ih := chop_tail (b :: rest)
          rw [hch] at ih
          simpa using ih

/-- Feeding chunks through the buffering loop yields exactly the complete
segments of the concatenated input, provided the starting buffer holds no
complete segment. -/
theorem runChunks_eq : ∀ (buf : Chars) (cs : List Chars), (chop buf).1 = [] →
    runChunks buf cs = (chop (buf ++ cs.flatten)).1
  | buf, [], h => by
      simpa [runChunks] using h.symm
  | buf, c :: cs, _ => by
      rw [runChunks, runChunks_eq (chop (buf ++ c)).2 cs (chop_tail _)]
      rw [List.flatten_cons, ← List.append_assoc, chop_append (buf ++ c) cs.flatten]

/-- C1: frame decoding is chunk-boundary independent.  For every byte sequence and
every way of splitting it into chunks, feeding the chunks one at a time through
the frame decoder (buffer accumulation, split on the double line-break, retain
the trailing segment, forward only segments starting with the `data:` prefix and
non-empty trimmed payload) and then parsing each forwarded payload yields the
same ordered sequence of parsed events as feeding the entire sequence as one
chunk. -/
theorem frame_decoding_chunk_boundary_independent {E : Type} (parse : Chars → E)
    (chunks : List Chars) :
    (decodeFrames chunks).map parse = (decodeFrames [chunks.flatten]).map parse := by
  have h1 : runChunks [] chunks = (chop chunks.flatten).1 := by
    simpa using runChunks_eq [] chunks rfl
  have h2 : runChunks [] [chunks.flatten] = (chop chunks.flatten).1 := by
    simp [runChunks]
  unfold decodeFrames
  rw [h1, h2]

/-! ## Usage and cost estimation (src/frontend/src/utils/pricing.ts) -/

/-- A per-million-token USD rate pair. -/
structure PricingRate where
  input : ℚ
  output : ℚ
deriving DecidableEq

/-- The static `PRICING` table, keyed by fully-qualified model id. -/
def PRICING (modelId : String) : Option PricingRate :=
  if modelId = "anthropic/claude-sonnet-4-5" then some ⟨3, 15⟩
  else if modelId = "anthropic/claude-sonnet-4" then some ⟨3, 15⟩
  else if modelId = "anthropic/claude-3.5-sonnet" then some ⟨3, 15⟩
  else if modelId = "anthropic/claude-opus-4" then some ⟨15, 75⟩
  else if modelId = "anthropic/claude-3-haiku" then some ⟨0.25, 1.25⟩
  else if modelId = "openai/gpt-4.1" then some ⟨2, 8⟩
  else if modelId = "openai/gpt-4o" then some ⟨2.5, 10⟩
  else if modelId = "openai/gpt-4o-mini" then some ⟨0.15, 0.6⟩
  else if modelId = "google/gemini-2.5-pro" then some ⟨1.25, 10⟩
  else if modelId = "google/gemini-2.0-flash" then some ⟨0.1, 0.4⟩
  else if modelId = "deepseek/deepseek-r1" then some ⟨0.55, 2.19⟩
  else if modelId = "deepseek/deepseek-chat" then some ⟨0.14, 0.28⟩
  else none

/-- The fixed fallback rate for unknown model ids. -/
def FALLBACK_PRICING_RATE : PricingRate := ⟨1, 3⟩

/-- `getPricing(modelId)`: table lookup with fallback (`PRICING[modelId] ?? FALLBACK`). -/
def getPricing (modelId : String) : PricingRate :=
  (PRICING modelId).getD FALLBACK_PRICING_RATE

/-- `estimateTokens(text) = Math.ceil(text.length / 4)`, written as the natural
ceiling division `(length + 3) / 4`; `estimateTokens_eq_ceil` below proves this
equal to the ceiling of the exact rational division. -/
def estimateTokens (text : Chars) : ℕ :=
  (text.length + 3) / 4

theorem estimateTokens_ceil_int (n : ℕ) :
    (((n + 3) / 4 : ℕ) : ℤ) = Int.ceil ((n : ℚ) / 4) := by
  set z : ℕ := (n + 3) / 4 with hz
  have h1 : n ≤ 4 * z := by omega
  have h2 : 4 * z ≤ n + 3 := by omega
  have h1q : (n : ℚ) ≤ 4 * (z : ℚ) := by exact_mod_cast h1
  have h2q : (4 : ℚ) * (z : ℚ) ≤ (n : ℚ) + 3 := by exact_mod_cast h2
  rw [eq_comm, Int.ceil_eq_iff]
  constructor
  · show ((z : ℤ) : ℚ) - 1 < (n : ℚ) / 4
    rw [Int.cast_natCast]
    linarith
  · show (n : ℚ) / 4 ≤ ((z : ℤ) : ℚ)
    rw [Int.cast_natCast]
    linarith

theorem estimateTokens_eq_ceil (t : Chars) :
    estimateTokens t = (Int.ceil ((t.length : ℚ) / 4)).toNat := by
  rw [← estimateTokens_ceil_int t.length, Int.toNat_natCast]
  rfl

/-- `calculateCost(tokensIn, tokensOut, modelId) = (tokensIn*rate.input + tokensOut*rate.output) / 1_000_000`. -/
def calculateCost (tokensIn tokensOut : ℕ) (modelId : String) : ℚ :=
  ((tokensIn : ℚ) * (getPricing modelId).input + (tokensOut : ℚ) * (getPricing modelId).output)
    / 1000000

/-! ## Event vocabulary (src/frontend/src/types/api.ts) -/

/-- Compare-mode side discriminator. -/
inductive Side where
  | left
  | right
deriving DecidableEq

/-- Server-reported usage payload (`StreamUsage`); all fields optional. -/
structure StreamUsage where
  prompt_tokens : Option ℕ
  completion_tokens : Option ℕ
  total_tokens : Option ℕ
deriving DecidableEq

/-- The single/compare stream event union (`StreamEvent`). -/
inductive StreamEv where
  | start
  | delta (text : Option Chars) (side : Option Side)
  | done (side : Option Side) (usage : Option StreamUsage)
  | complete (side : Option Side) (usage : Option StreamUsage)
  | error (message : Option Chars) (side : Option Side)
deriving DecidableEq

/-- The usage payload of a usage-bearing terminal event:
`(eventData.type === "done" || eventData.type === "complete") && eventData.usage`. -/
def evUsage : StreamEv → Option StreamUsage
  | .done _ u => u
  | .complete _ u => u
  | _ => none

/-- The `UsageInfo` record of the panels. -/
structure UsageInfo where
  tokensIn : ℕ
  tokensOut : ℕ
  cost : ℚ
  estimated : Bool
deriving DecidableEq

/-- The session accumulators of the zustand store (appStore.ts). -/
structure Totals where
  sessionTokensIn : ℕ
  sessionTokensOut : ℕ
  sessionCost : ℚ
deriving DecidableEq

/-- `addUsage(tokensIn, tokensOut, cost)` of the store. -/
def addUsage (t : Totals) (tokensIn tokensOut : ℕ) (cost : ℚ) : Totals :=
  ⟨t.sessionTokensIn + tokensIn, t.sessionTokensOut + tokensOut, t.sessionCost + cost⟩

/-- How the transport loop ended: normally, or by a thrown error (network reset,
non-2xx upgrade, or a JSON parse failure); the catch block receives the
already-extracted display message. -/
inductive Outcome where
  | ok
  | threw (message : Chars)
deriving DecidableEq

/-! ## Single-mode reducer (SingleChatPanel.submit) -/

/-- The mutable state of one `SingleChatPanel.submit` call: the `response` React
state, the `usage` React state, the local `accumulated` and `gotServerUsage`
variables, and the store totals. -/
structure SingleSt where
  response : Chars
  usage : Option UsageInfo
  accumulated : Chars
  gotServerUsage : Bool
  totals : Totals
deriving DecidableEq

/-- First statement of the loop body: `if (eventData.type === "delta" && eventData.text)`
append the text to `accumulated` and to the displayed response. -/
def singleDeltaStep (st : SingleSt) (e : StreamEv) : SingleSt :=
  match e with
  | .delta (some t) _ =>
      if t = [] then st
      else { st with accumulated := st.accumulated ++ t, response := st.response ++ t }
  | _ => st

/-- Second statement of the loop body: on a usage-bearing `done`/`complete`,
compute the non-estimated `UsageInfo`, add it to the session totals and set
`gotServerUsage`. -/
def singleUsageStep (modelId : String) (st : SingleSt) (e : StreamEv) : SingleSt :=
  match evUsage e with
  | some u =>
      let tokensIn := u.prompt_tokens.getD 0
      let tokensOut := u.completion_tokens.getD 0
      let cost := calculateCost tokensIn tokensOut modelId
      { st with usage := some ⟨tokensIn, tokensOut, cost, false⟩,
                totals := addUsage st.totals tokensIn tokensOut cost,
                gotServerUsage := true }
  | none => st

/-- One iteration of `for await (const eventData of stream)`. -/
def singleStep (modelId : String) (st : SingleSt) (e : StreamEv) : SingleSt :=
  singleUsageStep modelId (singleDeltaStep st e) e

/-- The whole event loop. -/
def runEvents (modelId : String) (st : SingleSt) (es : List StreamEv) : SingleSt :=
  es.foldl (singleStep modelId) st

/-- The catch block: `setResponse(error message)` (an unconditional replacement). -/
def catchSingle (st : SingleSt) : Outcome → SingleSt
  | .ok => st
  | .threw m => { st with response := m }

/-- The finally block: when no server usage arrived and text accumulated, settle
with estimated usage and add it to the session totals. -/
def finallySingle (prompt : Chars) (modelId : String) (st : SingleSt) : SingleSt :=
  if st.gotServerUsage = false ∧ 0 < st.accumulated.length then
    let tokensIn := estimateTokens prompt
    let tokensOut := estimateTokens st.accumulated
    let cost := calculateCost tokensIn tokensOut modelId
    { st with usage := some ⟨tokensIn, tokensOut, cost, true⟩,
              totals := addUsage st.totals tokensIn tokensOut cost }
  else st

/-- The state right after `setResponse("")`, `setUsage(null)`, `accumulated = ""`,
`gotServerUsage = false`. -/
def initSingle (totals : Totals) : SingleSt := ⟨[], none, [], false, totals⟩

/-- One whole `submit` call: event loop, then catch (when the transport threw,
`es` being the events delivered before the throw), then finally. -/
def submitSingle (prompt : Chars) (modelId : String) (totals : Totals)
    (es : List StreamEv) (o : Outcome) : SingleSt :=
  finallySingle prompt modelId (catchSingle (runEvents modelId (initSingle totals) es) o)

/-- Text contributed by one event to the `accumulated` variable. -/
def deltaText : StreamEv → Chars
  | .delta (some t) _ => t
  | _ => []

/-- The response text accumulated over a whole event sequence. -/
def accText (es : List StreamEv) : Chars := (es.map deltaText).flatten

/-! Auxiliary lemmas about the single-mode reducer. -/

theorem singleDeltaStep_fields (st : SingleSt) (e : StreamEv) :
    (singleDeltaStep st e).usage = st.usage ∧
    (singleDeltaStep st e).gotServerUsage = st.gotServerUsage ∧
    (singleDeltaStep st e).totals = st.totals := by
  cases e with
  | delta t s =>
      cases t with
      | none => exact ⟨rfl, rfl, rfl⟩
      | some t =>
          simp only [singleDeltaStep]
          split <;> exact ⟨rfl, rfl, rfl⟩
  | start => exact ⟨rfl, rfl, rfl⟩
  | done s u => exact ⟨rfl, rfl, rfl⟩
  | complete s u => exact ⟨rfl, rfl, rfl⟩
  | error m s => exact ⟨rfl, rfl, rfl⟩

theorem singleDeltaStep_acc (st : SingleSt) (e : StreamEv) :
    (singleDeltaStep st e).accumulated = st.accumulated ++ deltaText e := by
  cases e with
  | delta t s =>
      cases t with
      | none => simp [singleDeltaStep, deltaText]
      | some t =>
          simp only [singleDeltaStep, deltaText]
          split <;> simp_all
  | start => simp [singleDeltaStep, deltaText]
  | done s u => simp [singleDeltaStep, deltaText]
  | complete s u => simp [singleDeltaStep, deltaText]
  | error m s => simp [singleDeltaStep, deltaText]

theorem singleStep_none (modelId : String) (st : SingleSt) (e : StreamEv)
    (h : evUsage e = none) :
    (singleStep modelId st e).usage = st.usage ∧
    (singleStep modelId st e).gotServerUsage = st.gotServerUsage ∧
    (singleStep modelId st e).totals = st.totals := by
  unfold singleStep singleUsageStep
  rw [h]
  exact singleDeltaStep_fields st e

theorem singleStep_some (modelId : String) (st : SingleSt) (e : StreamEv) (u : StreamUsage)
    (h : evUsage e = some u) :
    (singleStep modelId st e).usage =
      some ⟨u.prompt_tokens.getD 0, u.completion_tokens.getD 0,
            calculateCost (u.prompt_tokens.getD 0) (u.completion_tokens.getD 0) modelId,
            false⟩ ∧
    (singleStep modelId st e).gotServerUsage = true := by
  unfold singleStep singleUsageStep
  rw [h]
  exact ⟨rfl, rfl⟩

theorem singleStep_acc (modelId : String) (st : SingleSt) (e : StreamEv) :
    (singleStep modelId st e).accumulated = st.accumulated ++ deltaText e := by
  unfold singleStep singleUsageStep
  cases h : evUsage e with
  | none => exact singleDeltaStep_acc st e
  | some u => exact singleDeltaStep_acc st e

theorem runEvents_none (modelId : String) :
    ∀ (es : List StreamEv) (st : SingleSt), (∀ e ∈ es, evUsage e = none) →
    (runEvents modelId st es).usage = st.usage ∧
    (runEvents modelId st es).gotServerUsage = st.gotServerUsage ∧
    (runEvents modelId st es).totals = st.totals
  | [], st, _ => ⟨rfl, rfl, rfl⟩
  | e :: es, st, h => by
      have h1 := singleStep_none modelId st e (h e (List.mem_cons_self e es))
      have h2 := runEvents_none modelId es (singleStep modelId st e)
        (fun x hx => h x (List.mem_cons_of_mem e hx))
      refine ⟨?_, ?_, ?_⟩
      · rw [runEvents, List.foldl_cons, ← runEvents, h2.1, h1.1]
      · rw [runEvents, List.foldl_cons, ← runEvents, h2.2.1, h1.2.1]
      · rw [runEvents, List.foldl_cons, ← runEvents, h2.2.2, h1.2.2]

theorem runEvents_acc (modelId : String) :
    ∀ (es : List StreamEv) (st : SingleSt),
    (runEvents modelId st es).accumulated = st.accumulated ++ accText es
  | [], st => by simp [runEvents, accText]
  | e :: es, st => by
      rw [runEvents, List.foldl_cons, ← runEvents, runEvents_acc modelId es,
        singleStep_acc]
      show _ = st.accumulated ++ (List.map deltaText (e :: es)).flatten
      rw [List.map_cons, List.flatten_cons, ← List.append_assoc]
      rfl

theorem singleStep_got (modelId : String) (st : SingleSt) (e : StreamEv) :
    (singleStep modelId st e).gotServerUsage =
      (st.gotServerUsage || (evUsage e).isSome) := by
  cases h : evUsage e with
  | none => simp [(singleStep_none modelId st e h).2.1]
  | some u => simp [(singleStep_some modelId st e u h).2]

theorem runEvents_got (modelId : String) :
    ∀ (es : List StreamEv) (st : SingleSt),
    (runEvents modelId st es).gotServerUsage =
      (st.gotServerUsage || es.any fun e => (evUsage e).isSome)
  | [], st => by simp [runEvents]
  | e :: es, st => by
      rw [runEvents, List.foldl_cons, ← runEvents, runEvents_got modelId es,
        singleStep_got]
      simp [Bool.or_assoc]

theorem catchSingle_fields (st : SingleSt) (o : Outcome) :
    (catchSingle st o).usage = st.usage ∧
    (catchSingle st o).gotServerUsage = st.gotServerUsage ∧
    (catchSingle st o).totals = st.totals ∧
    (catchSingle st o).accumulated = st.accumulated := by
  cases o <;> exact ⟨rfl, rfl, rfl, rfl⟩

theorem finallySingle_skip (prompt : Chars) (modelId : String) (st : SingleSt)
    (h : st.gotServerUsage = true) :
    finallySingle prompt modelId st = st := by
  unfold finallySingle
  rw [if_neg]
  simp [h]

theorem finallySingle_resp (prompt : Chars) (modelId : String) (st : SingleSt) :
    (finallySingle prompt modelId st).response = st.response := by
  unfold finallySingle
  split <;> rfl

/-- C2: for every event sequence containing exactly one usage-bearing terminal
event (`done` or `complete` with usage) whose usage carries `prompt_tokens` and
`completion_tokens`, the resulting `UsageInfo` has `estimated = false`,
`tokensIn = usage.prompt_tokens`, `tokensOut = usage.completion_tokens`, and
`cost = (tokensIn*input + tokensOut*output) / 1e6` at the pricing-table rate of
the unit's model id. -/
theorem single_server_usage_exact (prompt : Chars) (modelId : String) (totals : Totals)
    (l₁ l₂ : List StreamEv) (ev : StreamEv) (u : StreamUsage) (pin pout : ℕ) (o : Outcome)
    (hev : evUsage ev = some u)
    (h1 : ∀ e ∈ l₁, evUsage e = none) (h2 : ∀ e ∈ l₂, evUsage e = none)
    (hpin : u.prompt_tokens = some pin) (hpout : u.completion_tokens = some pout) :
    (submitSingle prompt modelId totals (l₁ ++ ev :: l₂) o).usage =
      some ⟨pin, pout,
        ((pin : ℚ) * (getPricing modelId).input + (pout : ℚ) * (getPricing modelId).output)
          / 1000000,
        false⟩ := by
  unfold submitSingle
  have hsplit : runEvents modelId (initSingle totals) (l₁ ++ ev :: l₂) =
      runEvents modelId (singleStep modelId (runEvents modelId (initSingle totals) l₁) ev) l₂ := by
    unfold runEvents
    rw [List.foldl_append, List.foldl_cons]
  rw [hsplit]
  have hmid := singleStep_some modelId (runEvents modelId (initSingle totals) l₁) ev u hev
  have htail := runEvents_none modelId l₂
    (singleStep modelId (runEvents modelId (initSingle totals) l₁) ev) h2
  have hgot : (runEvents modelId
      (singleStep modelId (runEvents modelId (initSingle totals) l₁) ev) l₂).gotServerUsage
      = true := by
    rw [htail.2.1, hmid.2]
  have hc := catchSingle_fields (runEvents modelId
    (singleStep modelId (runEvents modelId (initSingle totals) l₁) ev) l₂) o
  rw [finallySingle_skip _ _ _ (by rw [hc.2.1, hgot]), hc.1, htail.1, hmid.1,
    hpin, hpout]
  rfl

/-- C2 witness at a concrete stream. -/
theorem single_server_usage_exact_witness :
    (submitSingle ('h' :: []) "openai/gpt-4o" ⟨0, 0, 0⟩
        (.delta (some ('H' :: 'i' :: [])) none :: .done none (some ⟨some 10, some 5, none⟩) :: [])
        .ok).usage =
      some ⟨10, 5,
        ((10 : ℚ) * (getPricing ("openai/gpt-4o")).input
            + (5 : ℚ) * (getPricing ("openai/gpt-4o")).output) / 1000000,
        false⟩ :=
  single_server_usage_exact ('h' :: []) "openai/gpt-4o" ⟨0, 0, 0⟩
    (.delta (some ('H' :: 'i' :: [])) none :: []) [] (.done none (some ⟨some 10, some 5, none⟩))
    ⟨some 10, some 5, none⟩ 10 5 .ok rfl (by decide) (by decide) rfl rfl

/-- C3: for every event sequence with no usage-bearing terminal event whose
accumulated delta text is non-empty, the resulting `UsageInfo` has
`estimated = true`, `tokensIn = ceil(len(prompt)/4)` and
`tokensOut = ceil(len(accumulated response)/4)`. -/
theorem single_estimated_usage (prompt : Chars) (modelId : String) (totals : Totals)
    (es : List StreamEv) (o : Outcome)
    (hno : ∀ e ∈ es, evUsage e = none) (hacc : accText es ≠ []) :
    (submitSingle prompt modelId totals es o).usage =
      some ⟨(Int.ceil ((prompt.length : ℚ) / 4)).toNat,
            (Int.ceil (((accText es).length : ℚ) / 4)).toNat,
            calculateCost (estimateTokens prompt) (estimateTokens (accText es)) modelId,
            true⟩ := by
  unfold submitSingle
  have hrun := runEvents_none modelId es (initSingle totals) hno
  have hacc2 : (runEvents modelId (initSingle totals) es).accumulated = accText es := by
    rw [runEvents_acc]
    rfl
  have hc := catchSingle_fields (runEvents modelId (initSingle totals) es) o
  unfold finallySingle
  rw [if_pos]
  · rw [hc.2.2.2, hacc2, ← estimateTokens_eq_ceil prompt, ← estimateTokens_eq_ceil (accText es)]
  · constructor
    · rw [hc.2.1, hrun.2.1]
      rfl
    · rw [hc.2.2.2, hacc2]
      exact List.length_pos.mpr hacc

/-- C3 witness at a concrete stream: prompt of length 5, one delta of length 2,
a stream-level error event, transport ending normally. -/
theorem single_estimated_usage_witness :
    (submitSingle ('a' :: 'b' :: 'c' :: 'd' :: 'e' :: []) "m" ⟨0, 0, 0⟩
        (.delta (some ('h' :: 'i' :: [])) none :: .error (some ('x' :: [])) none :: [])
        .ok).usage =
      some ⟨(Int.ceil (((('a' :: 'b' :: 'c' :: 'd' :: 'e' :: [] : Chars)).length : ℚ) / 4)).toNat,
            (Int.ceil (((accText (.delta (some ('h' :: 'i' :: [])) none
                :: .error (some ('x' :: [])) none :: [])).length : ℚ) / 4)).toNat,
            calculateCost (estimateTokens ('a' :: 'b' :: 'c' :: 'd' :: 'e' :: []))
              (estimateTokens (accText (.delta (some ('h' :: 'i' :: [])) none
                :: .error (some ('x' :: [])) none :: []))) "m",
            true⟩ :=
  single_estimated_usage ('a' :: 'b' :: 'c' :: 'd' :: 'e' :: []) "m" ⟨0, 0, 0⟩
    (.delta (some ('h' :: 'i' :: [])) none :: .error (some ('x' :: [])) none :: [])
    .ok (by decide) (by decide)

/-- C4 counterexample: in single mode a stream that throws after `delta("partial")`
has its displayed response replaced by the error message, not kept at the
accumulated partial text, contradicting the claim. -/
theorem single_throw_counterexample :
    (submitSingle ('p' :: []) "m" ⟨0, 0, 0⟩
        (.delta (some ('p' :: 'a' :: 'r' :: 't' :: 'i' :: 'a' :: 'l' :: [])) none :: [])
        (.threw ('b' :: 'o' :: 'o' :: 'm' :: []))).response
      = 'b' :: 'o' :: 'o' :: 'm' :: [] ∧
    (submitSingle ('p' :: []) "m" ⟨0, 0, 0⟩
        (.delta (some ('p' :: 'a' :: 'r' :: 't' :: 'i' :: 'a' :: 'l' :: [])) none :: [])
        (.threw ('b' :: 'o' :: 'o' :: 'm' :: []))).response
      ≠ 'p' :: 'a' :: 'r' :: 't' :: 'i' :: 'a' :: 'l' :: [] := by
  constructor
  · rfl
  · decide

/-- C4 amended: when a single-mode stream throws after delta text has streamed
(and no usage-bearing terminal event arrived), the displayed response is
replaced by the error message — regardless of the streamed text — while the
accumulated partial text still produces the fallback estimated usage. -/
theorem single_throw_replaces_and_estimates (prompt : Chars) (modelId : String)
    (totals : Totals) (es : List StreamEv) (m : Chars)
    (hno : ∀ e ∈ es, evUsage e = none) (hacc : accText es ≠ []) :
    (submitSingle prompt modelId totals es (.threw m)).response = m ∧
    (submitSingle prompt modelId totals es (.threw m)).usage =
      some ⟨estimateTokens prompt, estimateTokens (accText es),
            calculateCost (estimateTokens prompt) (estimateTokens (accText es)) modelId,
            true⟩ := by
  constructor
  · unfold submitSingle
    rw [finallySingle_resp]
    rfl
  · have h := single_estimated_usage prompt modelId totals es (.threw m) hno hacc
    rw [← estimateTokens_eq_ceil prompt, ← estimateTokens_eq_ceil (accText es)] at h
    exact h

/-- C4 amended witness at a concrete stream. -/
theorem single_throw_replaces_and_estimates_witness :
    (submitSingle ('p' :: []) "m" ⟨0, 0, 0⟩
        (.delta (some ('h' :: 'i' :: [])) none :: [])
        (.threw ('b' :: 'o' :: 'o' :: 'm' :: []))).response
      = 'b' :: 'o' :: 'o' :: 'm' :: [] ∧
    (submitSingle ('p' :: []) "m" ⟨0, 0, 0⟩
        (.delta (some ('h' :: 'i' :: [])) none :: [])
        (.threw ('b' :: 'o' :: 'o' :: 'm' :: []))).usage =
      some ⟨estimateTokens ('p' :: []),
            estimateTokens (accText (.delta (some ('h' :: 'i' :: [])) none :: [])),
            calculateCost (estimateTokens ('p' :: []))
              (estimateTokens (accText (.delta (some ('h' :: 'i' :: [])) none :: []))) "m",
            true⟩ :=
  single_throw_replaces_and_estimates ('p' :: []) "m" ⟨0, 0, 0⟩
    (.delta (some ('h' :: 'i' :: [])) none :: []) ('b' :: 'o' :: 'o' :: 'm' :: [])
    (by decide) (by decide)

/-- C6 counterexample: a single-mode stream that delivered delta text and then an
error event (no usage-bearing terminal event) still produces a `UsageInfo` and
still increases the session cost, contradicting the claim that a failed stream
gets no usage accounting. -/
theorem single_failed_stream_charges_estimate :
    (submitSingle ('p' :: []) "m" ⟨0, 0, 0⟩
        (.delta (some ('h' :: 'i' :: [])) none :: .error (some ('b' :: 'o' :: 'o' :: 'm' :: [])) none :: [])
        .ok).usage ≠ none ∧
    (submitSingle ('p' :: []) "m" ⟨0, 0, 0⟩
        (.delta (some ('h' :: 'i' :: [])) none :: .error (some ('b' :: 'o' :: 'o' :: 'm' :: [])) none :: [])
        .ok).totals.sessionTokensIn ≠ 0 := by
  constructor
  · decide
  · decide

/-- C6 amended: a single-mode stream that ends with an error event, with no
usage-bearing terminal event and with no accumulated delta text, settles
without usage accounting: no `UsageInfo` is produced and the session totals are
unchanged. -/
theorem single_error_no_text_no_usage (prompt : Chars) (modelId : String)
    (totals : Totals) (es : List StreamEv) (m : Option Chars) (s : Option Side) (o : Outcome)
    (hlast : ∃ es₀, es = es₀ ++ StreamEv.error m s :: [])
    (hno : ∀ e ∈ es, evUsage e = none) (hacc : accText es = []) :
    (submitSingle prompt modelId totals es o).usage = none ∧
    (submitSingle prompt modelId totals es o).totals = totals := by
  clear hlast
  unfold submitSingle
  have hrun := runEvents_none modelId es (initSingle totals) hno
  have hacc2 : (runEvents modelId (initSingle totals) es).accumulated = accText es := by
    rw [runEvents_acc]
    rfl
  have hc := catchSingle_fields (runEvents modelId (initSingle totals) es) o
  unfold finallySingle
  rw [if_neg]
  · exact ⟨by rw [hc.1, hrun.1]; rfl, by rw [hc.2.2.1, hrun.2.2]; rfl⟩
  · intro hcond
    rw [hc.2.2.2, hacc2, hacc] at hcond
    simp at hcond

/-- C6 amended witness at a concrete stream. -/
theorem single_error_no_text_no_usage_witness :
    (submitSingle ('p' :: []) "m" ⟨0, 0, 0⟩
        (.error (some ('b' :: 'o' :: 'o' :: 'm' :: [])) none :: []) .ok).usage = none ∧
    (submitSingle ('p' :: []) "m" ⟨0, 0, 0⟩
        (.error (some ('b' :: 'o' :: 'o' :: 'm' :: [])) none :: []) .ok).totals = ⟨0, 0, 0⟩ :=
  single_error_no_text_no_usage ('p' :: []) "m" ⟨0, 0, 0⟩
    (.error (some ('b' :: 'o' :: 'o' :: 'm' :: [])) none :: [])
    (some ('b' :: 'o' :: 'o' :: 'm' :: [])) none .ok
    ⟨[], rfl⟩ (by decide) (by decide)

/-! ## Compare-mode reducer (ComparePanel.submit) -/

/-- JavaScript `a || b` on strings. -/
def jsOr (a b : Chars) : Chars := if a = [] then b else a

/-- The mutable state of one `ComparePanel.submit` call. -/
structure CompareSt where
  leftOutput : Chars
  rightOutput : Chars
  leftAcc : Chars
  rightAcc : Chars
  leftUsage : Option UsageInfo
  rightUsage : Option UsageInfo
  gotLeftUsage : Bool
  gotRightUsage : Bool
  totals : Totals
deriving DecidableEq

/-- First statement of the loop body: the `delta`/`delta`/`error` if-chain.
A sided delta appends to that side's accumulator and output; an error event
writes `Error: message` into a side's output only if it is still empty, and
when the error carries no side it does so for both sides. -/
def compareDisplayStep (st : CompareSt) (e : StreamEv) : CompareSt :=
  match e with
  | .delta (some t) (some .left) =>
      if t = [] then st
      else { st with leftAcc := st.leftAcc ++ t, leftOutput := st.leftOutput ++ t }
  | .delta (some t) (some .right) =>
      if t = [] then st
      else { st with rightAcc := st.rightAcc ++ t, rightOutput := st.rightOutput ++ t }
  | .error m s =>
      let msg := jsOr (m.getD []) (("Stream failed").data)
      match s with
      | some .left =>
          { st with leftOutput := jsOr st.leftOutput ((("Error: ").data) ++ msg) }
      | some .right =>
          { st with rightOutput := jsOr st.rightOutput ((("Error: ").data) ++ msg) }
      | none =>
          { st with leftOutput := jsOr st.leftOutput ((("Error: ").data) ++ msg),
                    rightOutput := jsOr st.rightOutput ((("Error: ").data) ++ msg) }
  | _ => st

/-- The side tag of an event. -/
def evSide : StreamEv → Option Side
  | .delta _ s => s
  | .done s _ => s
  | .complete s _ => s
  | .error _ s => s
  | .start => none

/-- Second statement of the loop body: a usage-bearing `done`/`complete` settles
the tagged side with server usage and adds it to the session totals; without a
side tag nothing happens. -/
def compareUsageStep (mL mR : String) (st : CompareSt) (e : StreamEv) : CompareSt :=
  match evUsage e, evSide e with
  | some u, some .left =>
      let tokensIn := u.prompt_tokens.getD 0
      let tokensOut := u.completion_tokens.getD 0
      let cost := calculateCost tokensIn tokensOut mL
      { st with leftUsage := some ⟨tokensIn, tokensOut, cost, false⟩,
                totals := addUsage st.totals tokensIn tokensOut cost,
                gotLeftUsage := true }
  | some u, some .right =>
      let tokensIn := u.prompt_tokens.getD 0
      let tokensOut := u.completion_tokens.getD 0
      let cost := calculateCost tokensIn tokensOut mR
      { st with rightUsage := some ⟨tokensIn, tokensOut, cost, false⟩,
                totals := addUsage st.totals tokensIn tokensOut cost,
                gotRightUsage := true }
  | _, _ => st

/-- One iteration of the compare loop. -/
def compareStep (mL mR : String) (st : CompareSt) (e : StreamEv) : CompareSt :=
  compareUsageStep mL mR (compareDisplayStep st e) e

/-- The whole compare event loop. -/
def runCompare (mL mR : String) (st : CompareSt) (es : List StreamEv) : CompareSt :=
  es.foldl (compareStep mL mR) st

/-- The compare catch block: both outputs replaced by the error text. -/
def catchCompare (st : CompareSt) : Outcome → CompareSt
  | .ok => st
  | .threw m => { st with leftOutput := m, rightOutput := m }

/-- The left half of the compare finally block. -/
def finallyCompareLeft (prompt : Chars) (mL : String) (st : CompareSt) : CompareSt :=
  if st.gotLeftUsage = false ∧ 0 < st.leftAcc.length then
    let tokensIn := estimateTokens prompt
    let tokensOut := estimateTokens st.leftAcc
    let cost := calculateCost tokensIn tokensOut mL
    { st with leftUsage := some ⟨tokensIn, tokensOut, cost, true⟩,
              totals := addUsage st.totals tokensIn tokensOut cost }
  else st

/-- The right half of the compare finally block. -/
def finallyCompareRight (prompt : Chars) (mR : String) (st : CompareSt) : CompareSt :=
  if st.gotRightUsage = false ∧ 0 < st.rightAcc.length then
    let tokensIn := estimateTokens prompt
    let tokensOut := estimateTokens st.rightAcc
    let cost := calculateCost tokensIn tokensOut mR
    { st with rightUsage := some ⟨tokensIn, tokensOut, cost, true⟩,
              totals := addUsage st.totals tokensIn tokensOut cost }
  else st

/-- The state right after the compare submit resets. -/
def initCompare (totals : Totals) : CompareSt :=
  ⟨[], [], [], [], none, none, false, false, totals⟩

/-- One whole `ComparePanel.submit` call. -/
def submitCompare (prompt : Chars) (mL mR : String) (totals : Totals)
    (es : List StreamEv) (o : Outcome) : CompareSt :=
  finallyCompareRight prompt mR (finallyCompareLeft prompt mL
    (catchCompare (runCompare mL mR (initCompare totals) es) o))

/-- C5 counterexample: in compare mode an `error` event carrying no side tag is
applied to both sides — it replaces both (empty) displayed outputs with the
error message — contradicting the claim that it mutates neither side. -/
theorem compare_sideless_error_hits_both_sides :
    (submitCompare [] "l" "r" ⟨0, 0, 0⟩
        (.error (some ('b' :: 'o' :: 'o' :: 'm' :: [])) none :: []) .ok).leftOutput
      = ("Error: boom").data ∧
    (submitCompare [] "l" "r" ⟨0, 0, 0⟩
        (.error (some ('b' :: 'o' :: 'o' :: 'm' :: [])) none :: []) .ok).rightOutput
      = ("Error: boom").data := by
  constructor
  · decide
  · decide

/-- C5 amended: in compare mode a `delta`, `done` or `complete` event without a
side tag is ignored entirely (the state is unchanged), while an `error` event
without a side tag is applied to both sides' displayed outputs — each replaced
by `Error: message` only when still empty — and mutates neither accumulator,
usage, settlement flag, nor the session totals. -/
theorem compare_sideless_events (mL mR : String) (st : CompareSt) (t : Chars)
    (u : Option StreamUsage) (m : Option Chars) :
    compareStep mL mR st (.delta (some t) none) = st ∧
    compareStep mL mR st (.delta none none) = st ∧
    compareStep mL mR st (.done none u) = st ∧
    compareStep mL mR st (.complete none u) = st ∧
    compareStep mL mR st (.error m none) =
      { st with
          leftOutput := jsOr st.leftOutput ((("Error: ").data) ++ jsOr (m.getD []) (("Stream failed").data)),
          rightOutput := jsOr st.rightOutput ((("Error: ").data) ++ jsOr (m.getD []) (("Stream failed").data)) } := by
  refine ⟨rfl, rfl, ?_, ?_, rfl⟩
  · cases u <;> rfl
  · cases u <;> rfl

/-- Does the event settle the given compare side with server usage? -/
def sideUsage (sd : Side) (e : StreamEv) : Bool :=
  match evUsage e, evSide e with
  | some _, some s => decide (s = sd)
  | _, _ => false

theorem compareDisplayStep_flags (st : CompareSt) (e : StreamEv) :
    (compareDisplayStep st e).gotLeftUsage = st.gotLeftUsage ∧
    (compareDisplayStep st e).gotRightUsage = st.gotRightUsage := by
  cases e with
  | start => exact ⟨rfl, rfl⟩
  | delta t s =>
      rcases t with _ | t
      · exact ⟨rfl, rfl⟩
      · rcases s with _ | s
        · exact ⟨rfl, rfl⟩
        · cases s
          · simp only [compareDisplayStep]
            split <;> exact ⟨rfl, rfl⟩
          · simp only [compareDisplayStep]
            split <;> exact ⟨rfl, rfl⟩
  | done s u => exact ⟨rfl, rfl⟩
  | complete s u => exact ⟨rfl, rfl⟩
  | error m s =>
      rcases s with _ | s
      · exact ⟨rfl, rfl⟩
      · cases s <;> exact ⟨rfl, rfl⟩

theorem compareUsageStep_gotLeft (mL mR : String) (st : CompareSt) (e : StreamEv) :
    (compareUsageStep mL mR st e).gotLeftUsage = (st.gotLeftUsage || sideUsage .left e) := by
  unfold compareUsageStep sideUsage
  cases hu : evUsage e with
  | none => simp
  | some u =>
      cases hs : evSide e with
      | none => simp
      | some s => cases s <;> simp

theorem compareUsageStep_gotRight (mL mR : String) (st : CompareSt) (e : StreamEv) :
    (compareUsageStep mL mR st e).gotRightUsage = (st.gotRightUsage || sideUsage .right e) := by
  unfold compareUsageStep sideUsage
  cases hu : evUsage e with
  | none => simp
  | some u =>
      cases hs : evSide e with
      | none => simp
      | some s => cases s <;> simp

theorem compareStep_gotLeft (mL mR : String) (st : CompareSt) (e : StreamEv) :
    (compareStep mL mR st e).gotLeftUsage = (st.gotLeftUsage || sideUsage .left e) := by
  unfold compareStep
  rw [compareUsageStep_gotLeft, (compareDisplayStep_flags st e).1]

theorem compareStep_gotRight (mL mR : String) (st : CompareSt) (e : StreamEv) :
    (compareStep mL mR st e).gotRightUsage = (st.gotRightUsage || sideUsage .right e) := by
  unfold compareStep
  rw [compareUsageStep_gotRight, (compareDisplayStep_flags st e).2]

theorem runCompare_gotLeft (mL mR : String) :
    ∀ (es : List StreamEv) (st : CompareSt),
    (runCompare mL mR st es).gotLeftUsage = (st.gotLeftUsage || es.any (sideUsage .left))
  | [], st => by simp [runCompare]
  | e :: es, st => by
      rw [runCompare, List.foldl_cons, ← runCompare, runCompare_gotLeft mL mR es,
        compareStep_gotLeft]
      simp [Bool.or_assoc]

theorem runCompare_gotRight (mL mR : String) :
    ∀ (es : List StreamEv) (st : CompareSt),
    (runCompare mL mR st es).gotRightUsage = (st.gotRightUsage || es.any (sideUsage .right))
  | [], st => by simp [runCompare]
  | e :: es, st => by
      rw [runCompare, List.foldl_cons, ← runCompare, runCompare_gotRight mL mR es,
        compareStep_gotRight]
      simp [Bool.or_assoc]

theorem catchCompare_flags (st : CompareSt) (o : Outcome) :
    (catchCompare st o).gotLeftUsage = st.gotLeftUsage ∧
    (catchCompare st o).gotRightUsage = st.gotRightUsage := by
  cases o <;> exact ⟨rfl, rfl⟩

theorem finallyCompareLeft_skip (prompt : Chars) (mL : String) (st : CompareSt)
    (h : st.gotLeftUsage = true) :
    finallyCompareLeft prompt mL st = st := by
  unfold finallyCompareLeft
  rw [if_neg]
  simp [h]

theorem finallyCompareRight_skip (prompt : Chars) (mR : String) (st : CompareSt)
    (h : st.gotRightUsage = true) :
    finallyCompareRight prompt mR st = st := by
  unfold finallyCompareRight
  rw [if_neg]
  simp [h]

theorem finallyCompareLeft_gotRight (prompt : Chars) (mL : String) (st : CompareSt) :
    (finallyCompareLeft prompt mL st).gotRightUsage = st.gotRightUsage := by
  unfold finallyCompareLeft
  split <;> rfl

/-- C7: session totals are updated at most once per unit.  Once a usage-bearing
terminal event has settled a unit (the single stream, or the tagged compare
side), the finally-phase fallback estimation for that unit is a no-op, so the
unit never contributes both server-reported and estimated usage: the single
submit equals the run without its finally block, and each compare submit whose
side saw server usage equals the run without that side's finally block. -/
theorem usage_counted_at_most_once
    (p1 : Chars) (m1 : String) (t1 : Totals) (es1 : List StreamEv) (o1 : Outcome)
    (p2 : Chars) (mL mR : String) (t2 t3 : Totals) (es2 es3 : List StreamEv) (o2 o3 : Outcome)
    (h1 : es1.any (fun e => (evUsage e).isSome) = true)
    (hL : es2.any (sideUsage .left) = true)
    (hR : es3.any (sideUsage .right) = true) :
    submitSingle p1 m1 t1 es1 o1 = catchSingle (runEvents m1 (initSingle t1) es1) o1 ∧
    submitCompare p2 mL mR t2 es2 o2 =
      finallyCompareRight p2 mR (catchCompare (runCompare mL mR (initCompare t2) es2) o2) ∧
    submitCompare p2 mL mR t3 es3 o3 =
      finallyCompareLeft p2 mL (catchCompare (runCompare mL mR (initCompare t3) es3) o3) := by
  refine ⟨?_, ?_, ?_⟩
  · unfold submitSingle
    apply finallySingle_skip
    rw [(catchSingle_fields _ o1).2.1, runEvents_got]
    simp [h1]
  · unfold submitCompare
    rw [finallyCompareLeft_skip]
    rw [(catchCompare_flags _ o2).1, runCompare_gotLeft]
    simp [hL]
  · unfold submitCompare
    apply finallyCompareRight_skip
    rw [finallyCompareLeft_gotRight, (catchCompare_flags _ o3).2, runCompare_gotRight]
    simp [hR]

/-- C7 witness at concrete streams. -/
theorem usage_counted_at_most_once_witness :
    submitSingle [] "m" ⟨0, 0, 0⟩ (.done none (some ⟨some 1, some 2, none⟩) :: []) .ok =
      catchSingle (runEvents "m" (initSingle ⟨0, 0, 0⟩)
        (.done none (some ⟨some 1, some 2, none⟩) :: [])) .ok ∧
    submitCompare [] "l" "r" ⟨0, 0, 0⟩ (.done (some .left) (some ⟨some 1, some 2, none⟩) :: []) .ok =
      finallyCompareRight [] "r" (catchCompare (runCompare "l" "r" (initCompare ⟨0, 0, 0⟩)
        (.done (some .left) (some ⟨some 1, some 2, none⟩) :: [])) .ok) ∧
    submitCompare [] "l" "r" ⟨0, 0, 0⟩ (.complete (some .right) (some ⟨some 1, some 2, none⟩) :: []) .ok =
      finallyCompareLeft [] "l" (catchCompare (runCompare "l" "r" (initCompare ⟨0, 0, 0⟩)
        (.complete (some .right) (some ⟨some 1, some 2, none⟩) :: [])) .ok) :=
  usage_counted_at_most_once [] "m" ⟨0, 0, 0⟩ (.done none (some ⟨some 1, some 2, none⟩) :: []) .ok
    [] "l" "r" ⟨0, 0, 0⟩ ⟨0, 0, 0⟩
    (.done (some .left) (some ⟨some 1, some 2, none⟩) :: [])
    (.complete (some .right) (some ⟨some 1, some 2, none⟩) :: []) .ok .ok
    (by decide) (by decide) (by decide)

/-! ## Crew-mode store and reducer (appStore.ts, CrewPanel.handleSubmit, CrewDashboard) -/

/-- One entry of `agentOutputs`: `{status, text, model, cost?, tokens?}`. -/
structure AgentOutput where
  status : String
  text : Chars
  model : String
  cost : Option ℚ
  tokens : Option ℚ
deriving DecidableEq

/-- A partial update passed to `updateAgentOutput`; `none` models an absent key
in the JS update object. -/
structure AgentUpdate where
  status : Option String
  text : Option Chars
  model : Option String
  cost : Option ℚ
  tokens : Option ℚ
deriving DecidableEq

/-- The lazily-created default `{status: "pending", text: "", model: ""}`. -/
def defaultAgent : AgentOutput := ⟨"pending", [], "", none, none⟩

/-- The object spread `{...default, ...existing, ...update}`: every field present
in the update overwrites, absent fields keep the base value. -/
def applyUpdate (base : AgentOutput) (u : AgentUpdate) : AgentOutput :=
  ⟨u.status.getD base.status,
   u.text.getD base.text,
   u.model.getD base.model,
   match u.cost with
   | some c => some c
   | none => base.cost,
   match u.tokens with
   | some tk => some tk
   | none => base.tokens⟩

/-- `agentOutputs[agent]` on the insertion-ordered object. -/
def lookupAgent : List (String × AgentOutput) → String → Option AgentOutput
  | [], _ => none
  | (k, v) :: r, a => if k = a then some v else lookupAgent r a

/-- Does the object already have the key? -/
def hasAgent (m : List (String × AgentOutput)) (a : String) : Bool :=
  m.any fun p => decide (p.1 = a)

/-- The store's `updateAgentOutput`: `{...outputs, [agent]: {...default, ...existing, ...update}}`.
JS object spread keeps an existing key at its original position and appends a
new key at the end. -/
def updateAgentOutput (m : List (String × AgentOutput)) (a : String) (u : AgentUpdate) :
    List (String × AgentOutput) :=
  let merged := applyUpdate ((lookupAgent m a).getD defaultAgent) u
  if hasAgent m a then m.map fun p => if p.1 = a then (a, merged) else p
  else m ++ (a, merged) :: []

/-- The crew-mode slice of the store. -/
structure CrewState where
  agentOutputs : List (String × AgentOutput)
  synthesisText : Chars
  crewTotalCost : ℚ
  errorMsg : Option Chars
deriving DecidableEq

/-- The crew stream event union (`CrewStreamEvent`); the `plan` payload is
ignored by the reducer and omitted. -/
inductive CrewEv where
  | crew_start (sessionId : Option String) (agents : Option (List String))
  | plan
  | agent_start (agent subtaskId model : Option String)
  | agent_delta (agent subtaskId : Option String) (text : Option Chars)
  | agent_done (agent subtaskId : Option String) (cost tokens : Option ℚ)
  | synthesis_delta (text : Option Chars)
  | crew_done (totalCost : Option ℚ)
  | error (message : Option Chars)
deriving DecidableEq

/-- The `crew_start` per-agent update `{status: "pending", text: "", model: ""}`. -/
def pendingUpdate : AgentUpdate := ⟨some ("pending"), some [], some (""), none, none⟩

/-- The `agent_start` update `{status: "running", model: event.model || ""}`. -/
def runningUpdate (model : Option String) : AgentUpdate :=
  ⟨some ("running"), none, some (model.getD ("")), none, none⟩

/-- The text lookup done by the `agent_delta` case:
`agentOutputs[agent]?.text || ""`. -/
def textOfMap (m : List (String × AgentOutput)) (a : String) : Chars :=
  ((lookupAgent m a).map AgentOutput.text).getD []

/-- The `agent_delta` update `{text: prev + event.text}`. -/
def deltaUpdate (prev t : Chars) : AgentUpdate := ⟨none, some (prev ++ t), none, none, none⟩

/-- The `agent_done` update `{status: "done", ...cost if number, ...tokens if number}`. -/
def doneUpdate (cost tokens : Option ℚ) : AgentUpdate := ⟨some ("done"), none, none, cost, tokens⟩

/-- `event.agents?.forEach(a => updateAgentOutput(a, pending))`. -/
def crewStartFold (m : List (String × AgentOutput)) (l : List String) :
    List (String × AgentOutput) :=
  l.foldl (fun acc a => updateAgentOutput acc a pendingUpdate) m

/-- One iteration of the `CrewPanel.handleSubmit` switch. -/
def crewStep (st : CrewState) (e : CrewEv) : CrewState :=
  match e with
  | .crew_start _ agents =>
      { st with agentOutputs := crewStartFold st.agentOutputs (agents.getD []) }
  | .plan => st
  | .agent_start agent _ model =>
      match agent with
      | some a =>
          if a = "" then st
          else { st with agentOutputs := updateAgentOutput st.agentOutputs a (runningUpdate model) }
      | none => st
  | .agent_delta agent _ text =>
      match agent, text with
      | some a, some t =>
          if a = "" ∨ t = [] then st
          else { st with agentOutputs := updateAgentOutput st.agentOutputs a (deltaUpdate (textOfMap st.agentOutputs a) t) }
      | _, _ => st
  | .agent_done agent _ cost tokens =>
      match agent with
      | some a =>
          if a = "" then st
          else { st with agentOutputs := updateAgentOutput st.agentOutputs a (doneUpdate cost tokens) }
      | none => st
  | .synthesis_delta text =>
      match text with
      | some t => if t = [] then st else { st with synthesisText := st.synthesisText ++ t }
      | none => st
  | .crew_done totalCost =>
      match totalCost with
      | some c => { st with crewTotalCost := c }
      | none => st
  | .error message =>
      { st with errorMsg := some (jsOr (message.getD []) (("Unknown error").data)) }

/-- The state right after `resetCrewState()` and `setError(null)`. -/
def initCrew : CrewState := ⟨[], [], 0, none⟩

/-- One whole `CrewPanel.handleSubmit` call: reset, event loop, catch. -/
def handleSubmitCrew (es : List CrewEv) (o : Outcome) : CrewState :=
  let st := es.foldl crewStep initCrew
  match o with
  | .ok => st
  | .threw m => { st with errorMsg := some m }

/-- The dashboard's displayed total cost: `crewTotalCost > 0 ? crewTotalCost :
sum of (cost ?? 0) over the agents`. -/
def dashboardTotalCost (st : CrewState) : ℚ :=
  if 0 < st.crewTotalCost then st.crewTotalCost
  else (st.agentOutputs.map fun p => p.2.cost.getD 0).sum

/-- The accumulated text of one agent, `agentOutputs[agent]?.text || ""`. -/
def textOf (st : CrewState) (a : String) : Chars :=
  textOfMap st.agentOutputs a

/-- The recorded tokens of one agent. -/
def tokensOf (st : CrewState) (a : String) : Option ℚ :=
  (lookupAgent st.agentOutputs a).bind AgentOutput.tokens

/-- The recorded cost of one agent. -/
def costOf (st : CrewState) (a : String) : Option ℚ :=
  (lookupAgent st.agentOutputs a).bind AgentOutput.cost

/-! Auxiliary lemmas about the insertion-ordered agent map. -/

theorem hasAgent_cons (k : String) (v : AgentOutput) (r : List (String × AgentOutput))
    (a : String) : hasAgent ((k, v) :: r) a = (decide (k = a) || hasAgent r a) := rfl

theorem lookupAgent_cons (k : String) (v : AgentOutput) (r : List (String × AgentOutput))
    (a : String) :
    lookupAgent ((k, v) :: r) a = if k = a then some v else lookupAgent r a := rfl

theorem lookup_map_set (a : String) (w : AgentOutput) :
    ∀ (m : List (String × AgentOutput)), hasAgent m a = true →
    lookupAgent (m.map fun p => if p.1 = a then (a, w) else p) a = some w
  | [], h => by simp [hasAgent] at h
  | (k, v) :: r, h => by
      simp only [List.map_cons]
      by_cases hk : k = a
      · rw [if_pos (show (k, v).1 = a from hk), lookupAgent_cons, if_pos rfl]
      · rw [if_neg (show ¬(k, v).1 = a from hk), lookupAgent_cons, if_neg hk]
        refine lookup_map_set a w r ?_
        rw [hasAgent_cons] at h
        simpa [hk] using h

theorem lookup_append_set (a : String) (w : AgentOutput) :
    ∀ (m : List (String × AgentOutput)), hasAgent m a = false →
    lookupAgent (m ++ (a, w) :: []) a = some w
  | [], _ => by rw [List.nil_append, lookupAgent_cons, if_pos rfl]
  | (k, v) :: r, h => by
      rw [hasAgent_cons] at h
      have hk : ¬(k = a) := by
        intro hka
        simp [hka] at h
      have hr : hasAgent r a = false := by simpa [hk] using h
      rw [List.cons_append, lookupAgent_cons, if_neg hk]
      exact lookup_append_set a w r hr

theorem lookup_map_ne (a b : String) (w : AgentOutput) (hne : ¬b = a) :
    ∀ (m : List (String × AgentOutput)),
    lookupAgent (m.map fun p => if p.1 = b then (b, w) else p) a = lookupAgent m a
  | [] => rfl
  | (k, v) :: r => by
      simp only [List.map_cons]
      by_cases hkb : k = b
      · rw [if_pos (show (k, v).1 = b from hkb), lookupAgent_cons, lookupAgent_cons,
          if_neg hne, if_neg (show ¬(k = a) from hkb ▸ hne)]
        exact lookup_map_ne a b w hne r
      · rw [if_neg (show ¬(k, v).1 = b from hkb), lookupAgent_cons, lookupAgent_cons]
        by_cases hka : k = a
        · rw [if_pos hka, if_pos hka]
        · rw [if_neg hka, if_neg hka]
          exact lookup_map_ne a b w hne r

theorem lookup_append_ne (a b : String) (w : AgentOutput) (hne : ¬b = a) :
    ∀ (m : List (String × AgentOutput)),
    lookupAgent (m ++ (b, w) :: []) a = lookupAgent m a
  | [] => by
      rw [List.nil_append, lookupAgent_cons, if_neg hne]
  | (k, v) :: r => by
      rw [List.cons_append, lookupAgent_cons, lookupAgent_cons]
      by_cases hka : k = a
      · rw [if_pos hka, if_pos hka]
      · rw [if_neg hka, if_neg hka]
        exact lookup_append_ne a b w hne r

theorem hasAgent_map_set (a : String) (w : AgentOutput) :
    ∀ (m : List (String × AgentOutput)),
    hasAgent (m.map fun p => if p.1 = a then (a, w) else p) a = hasAgent m a
  | [] => rfl
  | (k, v) :: r => by
      simp only [List.map_cons]
      by_cases hk : k = a
      · rw [if_pos (show (k, v).1 = a from hk), hasAgent_cons, hasAgent_cons,
          hasAgent_map_set a w r]
        simp [hk]
      · rw [if_neg (show ¬(k, v).1 = a from hk), hasAgent_cons, hasAgent_cons,
          hasAgent_map_set a w r]

theorem hasAgent_update (m : List (String × AgentOutput)) (a : String) (u : AgentUpdate) :
    hasAgent (updateAgentOutput m a u) a = true := by
  simp only [updateAgentOutput]
  by_cases h : hasAgent m a = true
  · simp [h, hasAgent_map_set]
  · simp only [h, if_false]
    simp [hasAgent, List.any_append]

theorem lookupAgent_update_self (m : List (String × AgentOutput)) (a : String) (u : AgentUpdate) :
    lookupAgent (updateAgentOutput m a u) a =
      some (applyUpdate ((lookupAgent m a).getD defaultAgent) u) := by
  simp only [updateAgentOutput]
  by_cases h : hasAgent m a = true
  · simp only [h, if_true]
    exact lookup_map_set a _ m h
  · simp only [h, if_false]
    exact lookup_append_set a _ m (Bool.not_eq_true _ ▸ eq_false_of_ne_true h)

theorem lookupAgent_update_ne (m : List (String × AgentOutput)) (a b : String)
    (u : AgentUpdate) (hne : ¬b = a) :
    lookupAgent (updateAgentOutput m b u) a = lookupAgent m a := by
  simp only [updateAgentOutput]
  by_cases h : hasAgent m b = true
  · simp only [h, if_true]
    exact lookup_map_ne a b _ hne m
  · simp only [h, if_false]
    exact lookup_append_ne a b _ hne m

theorem applyUpdate_idem (b : AgentOutput) (u : AgentUpdate) :
    applyUpdate (applyUpdate b u) u = applyUpdate b u := by
  rcases u with ⟨us, ut, um, uc, utk⟩
  cases us <;> cases ut <;> cases um <;> cases uc <;> cases utk <;> rfl

theorem update_of_saturated (m2 : List (String × AgentOutput)) (a : String) (u : AgentUpdate)
    (w : AgentOutput)
    (hlk : lookupAgent m2 a = some w)
    (hhas : hasAgent m2 a = true)
    (hfix : ∀ p ∈ m2, (if p.1 = a then (a, w) else p) = p)
    (hw : applyUpdate w u = w) :
    updateAgentOutput m2 a u = m2 := by
  simp only [updateAgentOutput, hlk, Option.getD_some, hw, hhas, if_true]
  rw [List.map_congr_left hfix]
  exact List.map_id m2

theorem updateAgentOutput_idem (m : List (String × AgentOutput)) (a : String) (u : AgentUpdate) :
    updateAgentOutput (updateAgentOutput m a u) a u = updateAgentOutput m a u := by
  apply update_of_saturated _ a u (applyUpdate ((lookupAgent m a).getD defaultAgent) u)
  · exact lookupAgent_update_self m a u
  · exact hasAgent_update m a u
  · intro p hp
    simp only [updateAgentOutput] at hp
    by_cases h : hasAgent m a = true
    · rw [if_pos h] at hp
      rcases List.mem_map.1 hp with ⟨q, hq, rfl⟩
      by_cases hq1 : q.1 = a
      · simp [hq1]
      · simp [hq1]
    · rw [if_neg h] at hp
      rcases List.mem_append.1 hp with hp | hp
      · have hpa : ¬(p.1 = a) := by
          intro hpa
          exact h (by unfold hasAgent; exact List.any_eq_true.2 ⟨p, hp, by simp [hpa]⟩)
        simp [hpa]
      · simp only [List.mem_singleton] at hp
        subst hp
        simp
  · exact applyUpdate_idem _ u

theorem textOfMap_update_text_none (m : List (String × AgentOutput)) (a : String)
    (u : AgentUpdate) (hu : u.text = none) :
    textOfMap (updateAgentOutput m a u) a = textOfMap m a := by
  unfold textOfMap
  rw [lookupAgent_update_self]
  cases hl : lookupAgent m a <;> simp [applyUpdate, hu, defaultAgent]

theorem textOfMap_update_pending (m : List (String × AgentOutput)) (a : String) :
    textOfMap (updateAgentOutput m a pendingUpdate) a = [] := by
  unfold textOfMap
  rw [lookupAgent_update_self]
  simp [applyUpdate, pendingUpdate]

theorem textOfMap_crewStartFold :
    ∀ (l : List String) (m : List (String × AgentOutput)) (a : String),
    textOfMap (crewStartFold m l) a = (if a ∈ l then [] else textOfMap m a)
  | [], m, a => by simp [crewStartFold]
  | b :: l, m, a => by
      rw [crewStartFold, List.foldl_cons, ← crewStartFold, textOfMap_crewStartFold l]
      by_cases hb : a ∈ l
      · simp [hb]
      · by_cases hba : b = a
        · subst hba
          simp [hb, textOfMap_update_pending, List.mem_cons]
        · have hx : textOfMap (updateAgentOutput m b pendingUpdate) a = textOfMap m a := by
            unfold textOfMap
            rw [lookupAgent_update_ne m a b pendingUpdate hba]
          have hmem : ¬(a ∈ b :: l) := by
            simp [List.mem_cons, hb]
            intro hab
            exact absurd hab.symm hba
          simp [hx, hb, hmem]

/-- C8 counterexample: after `agent_done{cost: 5}` and `crew_done{totalCost: 0}`,
the store's `crewTotalCost` is the arrived `0`, yet the dashboard displays the
per-agent sum `5`, contradicting the claim that the displayed total equals
`crew_done.totalCost` for every such value. -/
theorem crew_done_zero_counterexample :
    (handleSubmitCrew
        (.agent_done (some ("a")) none (some 5) (some 40) :: .crew_done (some 0) :: [])
        .ok).crewTotalCost = 0 ∧
    dashboardTotalCost (handleSubmitCrew
        (.agent_done (some ("a")) none (some 5) (some 40) :: .crew_done (some 0) :: [])
        .ok) = 5 := by
  have hst : handleSubmitCrew
      (.agent_done (some ("a")) none (some 5) (some 40) :: .crew_done (some 0) :: []) .ok =
      ⟨(("a"), ⟨("done"), [], (""), some 5, some 40⟩) :: [], [], 0, none⟩ := by rfl
  rw [hst]
  constructor
  · rfl
  · simp [dashboardTotalCost]

/-- C8 amended: a `crew_done` event carrying a positive `totalCost` is
authoritative: immediately after it the dashboard's displayed total cost equals
`crew_done.totalCost`, in preference to the per-agent sum; a non-positive value
(such as `0`) is stored but the dashboard falls back to the per-agent sum. -/
theorem crew_done_positive_authoritative (st : CrewState) (c : ℚ) (h : 0 < c) :
    dashboardTotalCost (crewStep st (.crew_done (some c))) = c := by
  simp [crewStep, dashboardTotalCost, h]

/-- C8 amended witness. -/
theorem crew_done_positive_authoritative_witness :
    dashboardTotalCost (crewStep initCrew (.crew_done (some 1))) = 1 :=
  crew_done_positive_authoritative initCrew 1 (by norm_num)

/-- C9 counterexample: text streamed by `agent_delta` is lost when a later
`crew_start` lists that agent — the agent is reset to the pending default with
empty text — contradicting the claim that such a `crew_start` leaves the
accumulated text unchanged. -/
theorem crew_start_resets_streamed_text :
    textOf (handleSubmitCrew
        (.agent_delta (some ("a")) none (some ('h' :: 'i' :: []))
          :: .crew_start none (some (("a") :: [])) :: []) .ok) ("a") = [] ∧
    textOf (handleSubmitCrew
        (.agent_delta (some ("a")) none (some ('h' :: 'i' :: [])) :: []) .ok) ("a")
      = 'h' :: 'i' :: [] := by
  constructor
  · decide
  · decide

/-- C9 amended: an agent's accumulated text survives `agent_start` and
`agent_done` events for it (agents are lazily created, so ordering does not
lose text), and survives a `crew_start` not listing it; but a `crew_start`
event that lists the agent resets its text to empty. -/
theorem crew_text_resilience (st : CrewState) (a : String) (l : List String)
    (sid sub sub2 : Option String) (model : Option String) (c tk : Option ℚ) :
    textOf (crewStep st (.agent_start (some a) sub model)) a = textOf st a ∧
    textOf (crewStep st (.agent_done (some a) sub2 c tk)) a = textOf st a ∧
    textOf (crewStep st (.crew_start sid (some l))) a = (if a ∈ l then [] else textOf st a) := by
  refine ⟨?_, ?_, ?_⟩
  · by_cases ha : a = ""
    · simp [crewStep, ha]
    · simp only [crewStep, ha, if_false]
      unfold textOf
      exact textOfMap_update_text_none st.agentOutputs a (runningUpdate model) rfl
  · by_cases ha : a = ""
    · simp [crewStep, ha]
    · simp only [crewStep, ha, if_false]
      unfold textOf
      exact textOfMap_update_text_none st.agentOutputs a (doneUpdate c tk) rfl
  · simp only [crewStep, Option.getD_some]
    unfold textOf
    exact textOfMap_crewStartFold l st.agentOutputs a

/-- C10: the `agent_done` update is a field-level merge and is idempotent:
applying `agent_done{cost: c, tokens: undefined}` leaves the agent's previously
recorded tokens unchanged, applying it twice equals applying it once, and
symmetrically an `agent_done` without a cost leaves the recorded cost
unchanged. -/
theorem agent_done_merge_idempotent (st : CrewState) (a : String) (sub sub2 : Option String)
    (c tk : ℚ) :
    crewStep (crewStep st (.agent_done (some a) sub (some c) none))
        (.agent_done (some a) sub (some c) none) =
      crewStep st (.agent_done (some a) sub (some c) none) ∧
    tokensOf (crewStep st (.agent_done (some a) sub (some c) none)) a = tokensOf st a ∧
    costOf (crewStep st (.agent_done (some a) sub2 none (some tk))) a = costOf st a := by
  by_cases ha : a = ""
  · simp [crewStep, ha, tokensOf, costOf]
  · refine ⟨?_, ?_, ?_⟩
    · simp only [crewStep, ha, if_false]
      rw [updateAgentOutput_idem]
    · simp only [crewStep, ha, if_false]
      unfold tokensOf
      rw [lookupAgent_update_self]
      cases hl : lookupAgent st.agentOutputs a <;>
        simp [applyUpdate, doneUpdate, defaultAgent]
    · simp only [crewStep, ha, if_false]
      unfold costOf
      rw [lookupAgent_update_self]
      cases hl : lookupAgent st.agentOutputs a <;>
        simp [applyUpdate, doneUpdate, defaultAgent]

end CodeSwap
